import Mathlib

/-!
Verification development for the `vertical2api` gateway.

The repository is a compatibility gateway between an OpenAI-style
chat-completions API (`main.py`) and a proprietary line-oriented streaming
backend (`vertical_client.py`).  This file gives a shallow embedding of the
conversation-affinity cache, the conversation matcher, the line-reframing
stream client and the stream-to-SSE translator, and proves the specification
claims about them.

Modelling conventions:
* Text is `List Char` (abbreviated `Str`); Python byte strings are
  `List Nat` with each element `< 256`.
* External library primitives that the source calls (the SHA-256 digest,
  Python's builtin `hash`, `json.loads`) are modelled by computable Lean
  functions that are faithful on the inputs this program feeds them; each
  such model is documented at its definition.
* Stateful code is modelled by explicit state passing: the shared
  `conversation_cache` (an `OrderedDict`) is a recency-ordered association
  list, least-recently-used first, exactly mirroring `OrderedDict`
  iteration order with `move_to_end` and `popitem(last=False)`.
-/

/-- Text, modelled as a list of characters (Python `str`). -/
abbrev Str := List Char

/-- Convenience: the character list of a Lean string literal. -/
def str (s : String) : Str := s.data

/-- Python whitespace stripped by `str.strip()` (ASCII part; the source
lines only ever carry ASCII whitespace). -/
def isPyWS (c : Char) : Bool :=
  c = ' ' || c = '\t' || c = '\n' || c = '\r' || c = '\x0b' || c = '\x0c'

/-- Model of Python `str.strip()`. -/
def pyStrip (s : Str) : Str :=
  ((s.dropWhile isPyWS).reverse.dropWhile isPyWS).reverse

/-- Model of Python `"\n".join(parts)`. -/
def joinWithNewline : List Str → Str
  | [] => []
  | [x] => x
  | x :: xs => x ++ '\n' :: joinWithNewline xs

/-! ## Fingerprints and the conversation cache (`main.py`) -/

/-- Model of `hashlib.sha256(content.encode('utf-8')).hexdigest()[:16]`.
The digest is an external-library primitive; the model replaces it by the
identity embedding of the text, which preserves the two properties the
program relies on: determinism (equal texts give equal digests) and,
idealizing collision resistance, injectivity.  No claim depends on the
digest value or its length. -/
def sha256hex16 (content : Str) : Str := content

/-- Function `generate_message_fingerprint` (main.py:90-93):
`f"{role}:{content_hash}"`. -/
def generate_message_fingerprint (role content : Str) : Str :=
  role ++ ':' :: sha256hex16 content

/-- Model of Python's builtin `hash` on strings (main.py:550): an
external deterministic primitive, modelled by an injective fold of the
character codes into an integer. -/
def pyhash (s : Str) : Int :=
  Int.ofNat (s.foldl (fun a c => a * 1114112 + c.toNat + 1) 0)

/-- One incoming chat message (`ChatMessage`, main.py:38-40). -/
structure ChatMessage where
  role : Str
  content : Str
deriving DecidableEq

/-- One cached conversation record (the dict stored in
`conversation_cache`, main.py:307-313). -/
structure CachedConv where
  vertical_chat_id : Str
  vertical_model_url : Str
  system_prompt_hash : Int
  message_fingerprints : List Str
  last_seen : Nat
deriving DecidableEq

/-- The `conversation_cache` `OrderedDict`, as a recency-ordered
association list: the head is the least recently used entry (the one
`popitem(last=False)` removes), the tail end is the most recently used. -/
abbrev Cache := List (Str × CachedConv)

/-- Constant `CONVERSATION_CACHE_MAX_SIZE` (main.py:23). -/
def CONVERSATION_CACHE_MAX_SIZE : Nat := 100

/-- Dictionary lookup in the cache (Python `conversation_cache[k]`;
keys are unique, so the first entry with the key is the entry). -/
def cacheGet : Cache → Str → Option CachedConv
  | [], _ => none
  | e :: rest, k => if e.1 == k then some e.2 else cacheGet rest k

/-- The fingerprint of the accumulated assistant reply
(main.py:303-305, 336-338). -/
def assistantReplyFingerprint (reply : Str) : Str :=
  generate_message_fingerprint (str "assistant") reply

/-- The record stored for a brand-new conversation
(main.py:297-313): fingerprints of every request message, followed by the
assistant reply fingerprint. -/
def newCacheRecord (vertical_chat_id model_url : Str)
    (system_prompt_hash : Int) (msgs : List ChatMessage)
    (reply : Str) (now : Nat) : CachedConv :=
  { vertical_chat_id := vertical_chat_id
    vertical_model_url := model_url
    system_prompt_hash := system_prompt_hash
    message_fingerprints :=
      msgs.map (fun m => generate_message_fingerprint m.role m.content)
        ++ [assistantReplyFingerprint reply]
    last_seen := now }

/-- Fingerprint extension for a matched conversation (main.py:323-338):
append the final user message fingerprint unless it is already the last
stored fingerprint, then append the assistant reply fingerprint. -/
def extendedFingerprints (old : List Str) (msgs : List ChatMessage)
    (reply : Str) : List Str :=
  let afterUser :=
    match msgs.getLast? with
    | none => old
    | some m =>
      let ufp := generate_message_fingerprint m.role m.content
      if old.getLast? = some ufp then old else old ++ [ufp]
  afterUser ++ [assistantReplyFingerprint reply]

/-- Function `_update_conversation_cache` (main.py:284-339).  The fresh internal id
(`str(uuid.uuid4())`) and the wall-clock time (`time.time()`) are passed
in explicitly.  `OrderedDict` assignment keeps the position of an existing
key, a fresh key is appended at the most-recent end, and
`popitem(last=False)` removes the least-recent entry (the list head).
A `matched_conv_id` absent from the cache would raise `KeyError` in the
source; the model leaves the cache unchanged in that (unreachable) case. -/
def _update_conversation_cache
    (is_new_cached_conv : Bool)
    (vertical_chat_id_for_cache : Str)
    (matched_conv_id_for_cache_update : Option Str)
    (original_request_messages : List ChatMessage)
    (full_assistant_reply_str : Str)
    (system_prompt_hash_for_cache : Int)
    (model_url_for_cache : Str)
    (new_internal_id : Str) (now : Nat)
    (cache : Cache) : Cache :=
  if is_new_cached_conv then
    let rec0 := newCacheRecord vertical_chat_id_for_cache model_url_for_cache
      system_prompt_hash_for_cache original_request_messages
      full_assistant_reply_str now
    let grown :=
      if cache.any (fun e => e.1 == new_internal_id) then
        cache.map (fun e => if e.1 == new_internal_id then (e.1, rec0) else e)
      else cache ++ [(new_internal_id, rec0)]
    if CONVERSATION_CACHE_MAX_SIZE < grown.length then grown.tail else grown
  else
    match matched_conv_id_for_cache_update with
    | none => cache
    | some mid =>
      cache.map (fun e =>
        if e.1 == mid then
          (e.1, { e.2 with
                  message_fingerprints :=
                    extendedFingerprints e.2.message_fingerprints
                      original_request_messages full_assistant_reply_str
                  last_seen := now })
        else e)

/-! ## The conversation matcher (main.py:563-573) -/

/-- The per-record match condition (main.py:566-568): same endpoint url,
same system prompt hash, and the stored fingerprints with the trailing
assistant entry removed (`[:-1]`) equal the request prior-turn
fingerprints. -/
def matchPred (url : Str) (sysHash : Int) (priorFps : List Str)
    (e : Str × CachedConv) : Bool :=
  e.2.vertical_model_url == url
    && e.2.system_prompt_hash == sysHash
    && e.2.message_fingerprints.dropLast == priorFps

/-- The scan (main.py:565): iterate `reversed(cache.items())`, i.e. most
recently used first, returning the first record satisfying the match
condition. -/
def matcher (url : Str) (sysHash : Int) (priorFps : List Str)
    (cache : Cache) : Option (Str × CachedConv) :=
  cache.reverse.find? (matchPred url sysHash priorFps)

/-- The matcher plus its `move_to_end` side effect (main.py:570-573). -/
def matchStep (url : Str) (sysHash : Int) (priorFps : List Str)
    (cache : Cache) : Option (Str × CachedConv) × Cache :=
  match matcher url sysHash priorFps cache with
  | none => (none, cache)
  | some (k, v) => (some (k, v), cache.filter (fun e => !(e.1 == k)) ++ [(k, v)])

/-! ## The request orchestration fragment of `chat_completions`
(main.py:534-606): system-prompt extraction, latest user message,
prior-turn fingerprints, match, and the reuse/new decision. -/

/-- System prompt extraction (main.py:535-544): concatenate every
`system` message content followed by a newline, then strip. -/
def systemPromptOf (msgs : List ChatMessage) : Str :=
  pyStrip (msgs.foldl
    (fun acc m => if m.role = str "system" then acc ++ m.content ++ ['\n'] else acc)
    [])

/-- Latest user message content (main.py:538-542): the content of the
last `user`-role message (each one overwrites the previous). -/
def latestUserContent (msgs : List ChatMessage) : Str :=
  msgs.foldl (fun acc m => if m.role = str "user" then m.content else acc) []

/-- History reconstruction for a new conversation (main.py:597-604):
`User: ...` / `Assistant: ...` lines joined with newlines. -/
def historyText (msgs : List ChatMessage) : Str :=
  joinWithNewline (msgs.filterMap (fun m =>
    if m.role = str "user" then some (str "User: " ++ m.content)
    else if m.role = str "assistant" then some (str "Assistant: " ++ m.content)
    else none))

/-- The orchestration decision computed by `chat_completions` before the
upstream call.  `new_chat_id` stands for the id the external
`get_chat_id` transport call would return on the unmatched path. -/
structure RequestPlan where
  final_vertical_chat_id : Str
  message_to_send : Str
  is_new_cached_conversation : Bool
  matched_conv_id : Option Str
  cache_after_match : Cache
deriving DecidableEq

/-- Function `chat_completions` up to the upstream send (main.py:534-606):
`none` models the 400 response for a missing/empty user message. -/
def planRequest (messages : List ChatMessage) (vertical_model_url : Str)
    (new_chat_id : Str) (cache : Cache) : Option RequestPlan :=
  let latestUser := latestUserContent messages
  if latestUser = [] then none
  else
    let sysHash := pyhash (systemPromptOf messages)
    let priorFps := messages.dropLast.map
      (fun m => generate_message_fingerprint m.role m.content)
    match matchStep vertical_model_url sysHash priorFps cache with
    | (some (k, v), cache') =>
      some { final_vertical_chat_id := v.vertical_chat_id
             message_to_send := latestUser
             is_new_cached_conversation := false
             matched_conv_id := some k
             cache_after_match := cache' }
    | (none, cache') =>
      let hist := historyText messages
      some { final_vertical_chat_id := new_chat_id
             message_to_send := if hist = [] then latestUser else hist
             is_new_cached_conversation := true
             matched_conv_id := none
             cache_after_match := cache' }

/-! ## The upstream stream client (`vertical_client.py:123-176`)

`send_message_stream` reads the upstream byte stream chunk by chunk,
decodes each chunk with `chunk.decode('utf-8', errors='ignore')`, appends
it to a text buffer, extracts complete newline-terminated lines, strips
them, and forwards the ones tagged `0:` (content) and — when reasoning is
requested — `g:` (reasoning); the tags `f:`, `e:`, `8:` are dropped; the
first `d:` line terminates the generator after yielding a canonical done
signal, and if the stream ends without one, the done signal is
synthesized. -/

/-- Model of Python `bytes.decode('utf-8', errors='ignore')`: standard
UTF-8 decoding (rejecting overlong forms, surrogates, and values above
U+10FFFF) where every invalid or truncated sequence is silently dropped
and decoding resumes at the next byte, as CPython's `ignore` handler
does. -/
def utf8DecodeIgnoreAux : Nat → List Nat → List Char
  | 0, _ => []
  | _, [] => []
  | fuel + 1, b :: bs =>
    if b ≤ 0x7F then Char.ofNat b :: utf8DecodeIgnoreAux fuel bs
    else if b ≤ 0xC1 then utf8DecodeIgnoreAux fuel bs
    else if b ≤ 0xDF then
      match bs with
      | [] => []
      | b1 :: rest =>
        if 0x80 ≤ b1 && b1 ≤ 0xBF then
          Char.ofNat ((b - 0xC0) * 0x40 + (b1 - 0x80))
            :: utf8DecodeIgnoreAux fuel rest
        else utf8DecodeIgnoreAux fuel bs
    else if b ≤ 0xEF then
      let okFirst : Nat → Bool := fun b1 =>
        if b = 0xE0 then 0xA0 ≤ b1 && b1 ≤ 0xBF
        else if b = 0xED then 0x80 ≤ b1 && b1 ≤ 0x9F
        else 0x80 ≤ b1 && b1 ≤ 0xBF
      match bs with
      | [] => []
      | [b1] => if okFirst b1 then [] else utf8DecodeIgnoreAux fuel [b1]
      | b1 :: b2 :: rest =>
        if okFirst b1 then
          if 0x80 ≤ b2 && b2 ≤ 0xBF then
            Char.ofNat ((b - 0xE0) * 0x1000 + (b1 - 0x80) * 0x40 + (b2 - 0x80))
              :: utf8DecodeIgnoreAux fuel rest
          else utf8DecodeIgnoreAux fuel (b2 :: rest)
        else utf8DecodeIgnoreAux fuel (b1 :: b2 :: rest)
    else if b ≤ 0xF4 then
      let okFirst : Nat → Bool := fun b1 =>
        if b = 0xF0 then 0x90 ≤ b1 && b1 ≤ 0xBF
        else if b = 0xF4 then 0x80 ≤ b1 && b1 ≤ 0x8F
        else 0x80 ≤ b1 && b1 ≤ 0xBF
      match bs with
      | [] => []
      | [b1] => if okFirst b1 then [] else utf8DecodeIgnoreAux fuel [b1]
      | [b1, b2] =>
        if okFirst b1 then
          if 0x80 ≤ b2 && b2 ≤ 0xBF then [] else utf8DecodeIgnoreAux fuel [b2]
        else utf8DecodeIgnoreAux fuel [b1, b2]
      | b1 :: b2 :: b3 :: rest =>
        if okFirst b1 then
          if 0x80 ≤ b2 && b2 ≤ 0xBF then
            if 0x80 ≤ b3 && b3 ≤ 0xBF then
              Char.ofNat ((b - 0xF0) * 0x40000 + (b1 - 0x80) * 0x1000
                + (b2 - 0x80) * 0x40 + (b3 - 0x80))
                :: utf8DecodeIgnoreAux fuel rest
            else utf8DecodeIgnoreAux fuel (b3 :: rest)
          else utf8DecodeIgnoreAux fuel (b2 :: b3 :: rest)
        else utf8DecodeIgnoreAux fuel (b1 :: b2 :: b3 :: rest)
    else utf8DecodeIgnoreAux fuel bs

/-- Decoder `utf8DecodeIgnoreAux` driven with enough fuel (every step consumes at
least one byte, so the byte count suffices). -/
def utf8DecodeIgnore (bytes : List Nat) : List Char :=
  utf8DecodeIgnoreAux bytes.length bytes

/-- The repeated `buffer.split('\n', 1)` loop (vertical_client.py:149-150):
extract every complete line (newline-terminated prefix) of the buffer, in
order, returning the extracted lines and the held-back trailing text. -/
def extractLines : List Char → List (List Char) × List Char
  | [] => ([], [])
  | c :: cs =>
    if c = '\n' then
      let r := extractLines cs
      ([] :: r.1, r.2)
    else
      let r := extractLines cs
      match r.1 with
      | [] => ([], c :: r.2)
      | l :: ls => ((c :: l) :: ls, r.2)

/-- The canonical done signal the client yields
(vertical_client.py:169,176). -/
def doneLine : Str := str "d:\x7b\"type\": \"done\"\x7d"

/-- What the per-line dispatch (vertical_client.py:152-172) does with one
stripped line. -/
inductive LineStep where
  /-- line dropped (`f:`, `e:`, `8:`, empty, unrecognized, or `g:`
  without reasoning) -/
  | skip
  /-- line forwarded verbatim (`0:`, or `g:` with reasoning) -/
  | emit (s : Str)
  /-- tag `d:` seen: yield the canonical done signal and stop the generator -/
  | emitDoneStop
deriving DecidableEq

/-- The per-line dispatch (vertical_client.py:150-172), applied to a raw
extracted line: strip it, drop empty lines, then branch on the tag. -/
def stepLine (output_reasoning : Bool) (rawLine : Str) : LineStep :=
  let line := pyStrip rawLine
  if line = [] then .skip
  else if (str "f:").isPrefixOf line then .skip
  else if (str "0:").isPrefixOf line then .emit line
  else if (str "g:").isPrefixOf line && output_reasoning then .emit line
  else if (str "e:").isPrefixOf line then .skip
  else if (str "d:").isPrefixOf line then .emitDoneStop
  else .skip

/-- Run the dispatch over a list of extracted lines; the Bool is the
"generator returned" flag (true once a `d:` line was consumed, after
which nothing further is read or emitted). -/
def processLines (output_reasoning : Bool) :
    List (List Char) → Bool → List Str × Bool
  | _, true => ([], true)
  | [], false => ([], false)
  | l :: ls, false =>
    match stepLine output_reasoning l with
    | .skip => processLines output_reasoning ls false
    | .emit s =>
      let r := processLines output_reasoning ls false
      (s :: r.1, r.2)
    | .emitDoneStop => ([doneLine], true)

/-- Generator state of `send_message_stream`: the held-back partial line
and whether the generator already returned. -/
structure ClientState where
  buffer : List Char
  halted : Bool
deriving DecidableEq

/-- Process one decoded chunk (vertical_client.py:145-172): append to the
buffer, extract the complete lines, dispatch each. -/
def processChunk (output_reasoning : Bool) (st : ClientState)
    (chunk : List Char) : List Str × ClientState :=
  if st.halted then ([], st)
  else
    let r := extractLines (st.buffer ++ chunk)
    let p := processLines output_reasoning r.1 false
    (p.1, ⟨r.2, p.2⟩)

/-- Fold `processChunk` over the chunk stream; when the stream ends
without a `d:` signal the done signal is synthesized
(vertical_client.py:175-176).  Any text still in the buffer at that point
is discarded without being classified. -/
def processChunksFrom (output_reasoning : Bool) :
    ClientState → List (List Char) → List Str
  | st, [] => if st.halted then [] else [doneLine]
  | st, c :: cs =>
    let r := processChunk output_reasoning st c
    r.1 ++ processChunksFrom output_reasoning r.2 cs

/-- The full success-path output of `send_message_stream` on a decoded
chunk stream. -/
def processChunks (output_reasoning : Bool) (chunks : List (List Char)) : List Str :=
  processChunksFrom output_reasoning ⟨[], false⟩ chunks

/-- Generator `send_message_stream` on the success (HTTP 200) path, starting from
the raw byte chunks as delivered by `response.aiter_bytes()`
(vertical_client.py:144-176): each chunk is decoded with
`errors='ignore'` before being buffered. -/
def send_message_stream_lines (output_reasoning : Bool)
    (byteChunks : List (List Nat)) : List Str :=
  processChunks output_reasoning (byteChunks.map utf8DecodeIgnore)

/-- The error line yielded on a non-200 upstream status
(vertical_client.py:131-141). -/
def mkErrorLine (status : Nat) (error_content : Str) : Str :=
  str "error: \x7b\"message\": \"API请求失败: " ++ (toString status).data
    ++ str " - " ++ error_content.take 200 ++ str "\"\x7d"

/-- Generator `send_message_stream` on the non-success-status path: the single
error line, then the generator returns. -/
def send_message_stream_error (status : Nat) (error_content : Str) : List Str :=
  [mkErrorLine status error_content]

/-! ## Payload decoding (`parse_json_string_content`, main.py:259-280) -/

/-- Value of a hexadecimal digit, as accepted in a JSON `\uXXXX` escape. -/
def jsonHexVal (c : Char) : Option Nat :=
  if '0' ≤ c && c ≤ '9' then some (c.toNat - 48)
  else if 'a' ≤ c && c ≤ 'f' then some (c.toNat - 87)
  else if 'A' ≤ c && c ≤ 'F' then some (c.toNat - 55)
  else none

/-- Model of `json.loads(f'"{segment}"')` (main.py:266): decode `segment`
as the body of a JSON string literal.  `none` models `JSONDecodeError`:
an unescaped quote (which would end the literal early, leaving extra
data), an unescaped control character (rejected in strict mode), an
unknown escape, a malformed `\uXXXX`, or a trailing lone backslash.
Lone surrogate escapes, which CPython's `json` tolerates, are not
representable as Lean characters and are modelled as a decode failure;
no claim depends on them.  Structural fuel recursion: every step consumes
at least one character. -/
def jsonStringDecodeAux : Nat → Str → Option Str
  | 0, _ => none
  | _, [] => some []
  | fuel + 1, c :: rest =>
    if c = '\\' then
      match rest with
      | [] => none
      | e :: r =>
        if e = '"' then (jsonStringDecodeAux fuel r).map ('"' :: ·)
        else if e = '\\' then (jsonStringDecodeAux fuel r).map ('\\' :: ·)
        else if e = '/' then (jsonStringDecodeAux fuel r).map ('/' :: ·)
        else if e = 'b' then (jsonStringDecodeAux fuel r).map ('\x08' :: ·)
        else if e = 'f' then (jsonStringDecodeAux fuel r).map ('\x0c' :: ·)
        else if e = 'n' then (jsonStringDecodeAux fuel r).map ('\n' :: ·)
        else if e = 'r' then (jsonStringDecodeAux fuel r).map ('\r' :: ·)
        else if e = 't' then (jsonStringDecodeAux fuel r).map ('\t' :: ·)
        else if e = 'u' then
          match r with
          | h1 :: h2 :: h3 :: h4 :: r2 =>
            match jsonHexVal h1, jsonHexVal h2, jsonHexVal h3, jsonHexVal h4 with
            | some v1, some v2, some v3, some v4 =>
              let n := v1 * 4096 + v2 * 256 + v3 * 16 + v4
              if 0xD800 ≤ n && n ≤ 0xDBFF then
                match r2 with
                | '\\' :: 'u' :: g1 :: g2 :: g3 :: g4 :: r3 =>
                  match jsonHexVal g1, jsonHexVal g2, jsonHexVal g3, jsonHexVal g4 with
                  | some w1, some w2, some w3, some w4 =>
                    let m := w1 * 4096 + w2 * 256 + w3 * 16 + w4
                    if 0xDC00 ≤ m && m ≤ 0xDFFF then
                      (jsonStringDecodeAux fuel r3).map
                        (Char.ofNat (0x10000 + (n - 0xD800) * 0x400 + (m - 0xDC00)) :: ·)
                    else none
                  | _, _, _, _ => none
                | _ => none
              else if 0xDC00 ≤ n && n ≤ 0xDFFF then none
              else (jsonStringDecodeAux fuel r2).map (Char.ofNat n :: ·)
            | _, _, _, _ => none
          | _ => none
        else none
    else if c = '"' then none
    else if c.toNat < 0x20 then none
    else (jsonStringDecodeAux fuel rest).map (c :: ·)

/-- Decoder `jsonStringDecodeAux` with enough fuel. -/
def jsonStringDecode (s : Str) : Option Str :=
  jsonStringDecodeAux s.length s

/-- Python `str.replace(pat, rep)`: leftmost-first, non-overlapping.
The source only ever calls it with non-empty patterns; an empty pattern
is returned unchanged.  Structural fuel recursion on the scanned text. -/
def strReplaceAux (pat rep : Str) : Nat → Str → Str
  | 0, s => s
  | _, [] => []
  | fuel + 1, c :: cs =>
    if pat.isPrefixOf (c :: cs) then
      rep ++ strReplaceAux pat rep fuel ((c :: cs).drop pat.length)
    else c :: strReplaceAux pat rep fuel cs

/-- Python `s.replace(pat, rep)` (for non-empty `pat`). -/
def strReplace (s pat rep : Str) : Str :=
  if pat = [] then s else strReplaceAux pat rep s.length s

/-- The best-effort fallback of `parse_json_string_content`
(main.py:272-274): `.replace('\\\\"', '"').replace('\\n', '\n')
.replace('\\t', '\t')` — substitute the escaped quote, newline and tab
sequences manually. -/
def manualUnescape (seg : Str) : Str :=
  strReplace (strReplace (strReplace seg (str "\\\\\"") (str "\""))
      (str "\\n") (str "\n"))
    (str "\\t") (str "\t")

/-- Function `parse_json_string_content` (main.py:259-280).  The source is only
ever called with `suffix_len = -1`, so the slice `line[prefix_len:-1]` is
modelled directly.  The final generic `except` branch (return the raw
segment) is unreachable in the model, where decoding is a total
function. -/
def parse_json_string_content (line : Str) (prefix_len : Nat) : Str :=
  let content_segment := (line.drop prefix_len).dropLast
  match jsonStringDecode content_segment with
  | some s => s
  | none => manualUnescape content_segment

/-! ## The OpenAI stream translator (`openai_stream_adapter`,
main.py:342-468) and the non-streaming aggregator (main.py:471-507) -/

/-- The `delta` dictionary of one streamed choice. -/
structure Delta where
  role : Option Str := none
  content : Option Str := none
  reasoning_content : Option Str := none
deriving DecidableEq

/-- One item of the adapter's SSE output: a chunk (one `StreamResponse`
with a single choice) or the `data: [DONE]` sentinel.  The envelope
fields (id, created, model, object tag) carry no claim content and are
omitted. -/
inductive SSEItem where
  | chunk (delta : Delta) (finish_reason : Option Str)
  | doneSentinel
deriving DecidableEq

/-- Model of `json.loads(line[2:]).get("type") in ("done", "DONE")`
(main.py:407-409) on the wire forms this pipeline produces: the client
forwards only the canonical done payload, any other `d:` payload counts
as not-done (the source's bare `except: pass` likewise drops payloads it
cannot parse). -/
def parseDoneSignal (payload : Str) : Bool :=
  payload == str "\x7b\"type\": \"done\"\x7d"
    || payload == str "\x7b\"type\": \"DONE\"\x7d"

/-- A character that a JSON string literal encodes as itself. -/
def jsonPlainChar (c : Char) : Bool :=
  c ≠ '"' && c ≠ '\\' && 0x20 ≤ c.toNat

/-- Model of the error payload parse (main.py:364-368):
`json.loads(line[6:]).get("message", "Unknown error")` with the fallback
`"Unknown error from Vertical API"` on a parse failure.  It is modelled
on the single-key object shape the client produces
(`· {"message": "<plain text>"}`); any other payload is treated as
unparsable, which conflates the source's two fallback strings — no claim
distinguishes them. -/
def parseErrorMessage (payload : Str) : Str :=
  let pre := str " \x7b\"message\": \""
  let suf := str "\"\x7d"
  let body := payload.drop pre.length
  let mid := body.take (body.length - suf.length)
  if payload = pre ++ mid ++ suf && mid.all jsonPlainChar then mid
  else str "Unknown error from Vertical API"

/-- The error chunk yielded for an `error:` line (main.py:370-378). -/
def errorChunk (line : Str) : SSEItem :=
  .chunk { role := some (str "assistant")
           content := some (str "错误: " ++ parseErrorMessage (line.drop 6)) }
    (some (str "stop"))

/-- The finish chunk yielded for a done signal (main.py:411-420). -/
def finishChunk : SSEItem := .chunk {} (some (str "stop"))

/-- The loop body of `openai_stream_adapter` (main.py:361-439), with the
`first_chunk_sent` flag and the `full_assistant_reply_parts` accumulator
threaded explicitly.  Returns the yielded SSE items and `some parts` when
the loop reached the cache-update step (done signal or exhausted input),
or `none` when an `error:` line aborted the stream before it. -/
def adapterGo (reasoning_requested : Bool) :
    List Str → Bool → List Str → List SSEItem × Option (List Str)
  | [], _, parts => ([.doneSentinel], some parts)
  | line :: ls, first_chunk_sent, parts =>
    if (str "error:").isPrefixOf line then
      ([errorChunk line, .doneSentinel], none)
    else if (str "0:\"").isPrefixOf line && line.getLast? == some '"' then
      let final_content := parse_json_string_content line 3
      let delta : Delta :=
        if !first_chunk_sent then
          { role := some (str "assistant"), content := some final_content }
        else { content := some final_content }
      let r := adapterGo reasoning_requested ls true (parts ++ [final_content])
      (.chunk delta none :: r.1, r.2)
    else if reasoning_requested && (str "g:\"").isPrefixOf line
        && line.getLast? == some '"' then
      let thinking_content := parse_json_string_content line 3
      let delta : Delta :=
        if !first_chunk_sent then
          { role := some (str "assistant"), reasoning_content := some thinking_content }
        else { reasoning_content := some thinking_content }
      let r := adapterGo reasoning_requested ls true
        (parts ++ [str "[Thinking]: " ++ thinking_content])
      (.chunk delta none :: r.1, r.2)
    else if (str "d:").isPrefixOf line then
      if parseDoneSignal (line.drop 2) then
        ([finishChunk, .doneSentinel], some parts)
      else adapterGo reasoning_requested ls first_chunk_sent parts
    else adapterGo reasoning_requested ls first_chunk_sent parts

/-- Translator `openai_stream_adapter` (main.py:342-468) as a pure function of the
upstream line stream: the SSE items in emission order, and — when the
normal completion path was reached — the accumulated assistant reply
`"\n".join(full_assistant_reply_parts)` that is passed to
`_update_conversation_cache`; `none` means the error path, on which no
cache update happens. -/
def openai_stream_adapter (reasoning_requested : Bool) (lines : List Str) :
    List SSEItem × Option Str :=
  let r := adapterGo reasoning_requested lines false []
  (r.1, r.2.map joinWithNewline)

/-- The cache state after the adapter finishes one turn: updated via
`_update_conversation_cache` on normal completion (main.py:441-451),
untouched on the error path. -/
def cacheAfterStream (reasoning_requested : Bool) (lines : List Str)
    (is_new_cached_conv : Bool) (vertical_chat_id : Str)
    (matched_conv_id : Option Str) (msgs : List ChatMessage)
    (sysHash : Int) (model_url : Str) (new_internal_id : Str) (now : Nat)
    (cache : Cache) : Cache :=
  match (openai_stream_adapter reasoning_requested lines).2 with
  | none => cache
  | some reply =>
    _update_conversation_cache is_new_cached_conv vertical_chat_id
      matched_conv_id msgs reply sysHash model_url new_internal_id now cache

/-- Aggregator `aggregate_stream_for_non_stream_response` (main.py:471-507), reduced
to the response content it builds: every chunk with a `content` key goes
to the content bucket, every chunk with a `reasoning_content` key (and no
`content` key, per the source's `elif`) to the reasoning bucket; the
reasoning parts, each prefixed with `[Thinking]: `, are concatenated
before the content parts. -/
def aggregateContent (items : List SSEItem) : Str :=
  let contents := items.filterMap (fun it =>
    match it with
    | .chunk d _ => if d.content.isSome then d.content else none
    | .doneSentinel => none)
  let reasonings := items.filterMap (fun it =>
    match it with
    | .chunk d _ => if d.content.isSome then none else d.reasoning_content
    | .doneSentinel => none)
  (reasonings.map (fun p => str "[Thinking]: " ++ p)).flatten ++ contents.flatten

/-! ## Derived notions used by the theorems -/

/-- Lines joined back with their terminating newlines. -/
def joinNL : List (List Char) → List Char
  | [] => []
  | l :: ls => l ++ '\n' :: joinNL ls

/-- The prefix of a text up to and including its last newline (empty if
it has none): the part of a stream that is ever framed into lines. -/
def keepThroughLastNewline (s : List Char) : List Char :=
  (s.reverse.dropWhile (fun c => !(c = '\n'))).reverse

/-- A line the client forwards on the success path: tagged `0:` or
`g:`. -/
def goodLine (l : Str) : Bool :=
  (str "0:").isPrefixOf l || (str "g:").isPrefixOf l

/-- A terminal chunk: one carrying a finish-reason marker. -/
def isFinishChunk : SSEItem → Bool
  | .chunk _ (some _) => true
  | _ => false

/-- The output stream ends with exactly one terminal event — a
finish-reason chunk immediately followed by the end-of-stream sentinel —
and contains no other finish chunk or sentinel. -/
def endsWithUniqueTerminal (evs : List SSEItem) : Bool :=
  match evs.reverse with
  | .doneSentinel :: fc :: rest =>
    isFinishChunk fc
      && rest.all (fun e => !isFinishChunk e && !(e == SSEItem.doneSentinel))
  | _ => false

/-! ## Helper lemmas -/

/-- Success of `find?` yields the first satisfying element: the predicate
holds of it and everything before it fails the predicate. -/
theorem list_find_eq_some_split {α : Type} (p : α → Bool) :
    ∀ (l : List α) (x : α), l.find? p = some x →
      p x = true ∧ ∃ l1 l2, l = l1 ++ x :: l2 ∧ ∀ y ∈ l1, p y = false := by
  intro l
  induction l with
  | nil => intro x h; simp [List.find?] at h
  | cons a as ih =>
    intro x h
    cases hpa : p a with
    | true =>
      rw [List.find?_cons, hpa] at h
      cases h
      exact ⟨hpa, [], as, rfl, by simp⟩
    | false =>
      rw [List.find?_cons, hpa] at h
      obtain ⟨hx, l1, l2, hdecomp, hall⟩ := ih x h
      refine ⟨hx, a :: l1, l2, by simp [hdecomp], ?_⟩
      intro y hy
      rcases List.mem_cons.mp hy with hy | hy
      · exact hy ▸ hpa
      · exact hall y hy

/-- If some member satisfies the predicate, `find?` succeeds. -/
theorem list_find_of_mem {α : Type} (p : α → Bool) :
    ∀ (l : List α) (x : α), x ∈ l → p x = true →
      ∃ y, l.find? p = some y := by
  intro l
  induction l with
  | nil => intro x h; simp at h
  | cons a as ih =>
    intro x hmem hp
    cases hpa : p a with
    | true => exact ⟨a, by rw [List.find?_cons, hpa]⟩
    | false =>
      rcases List.mem_cons.mp hmem with h | h
      · simp [h, hpa] at hp
      · obtain ⟨y, hy⟩ := ih x h hp
        exact ⟨y, by rw [List.find?_cons, hpa]; exact hy⟩

/-- Looking up a fresh key that was appended at the recency end. -/
theorem cacheGet_append_fresh (l : Cache) (k : Str) (v : CachedConv)
    (hfresh : ∀ e ∈ l, (e.1 == k) = false) :
    cacheGet (l ++ [(k, v)]) k = some v := by
  induction l with
  | nil => simp [cacheGet]
  | cons a as ih =>
    have ha := hfresh a (by simp)
    have hrest : ∀ e ∈ as, (e.1 == k) = false := fun e he => hfresh e (by simp [he])
    simp only [List.cons_append, cacheGet, ha, Bool.false_eq_true, if_false]
    exact ih hrest

/-- A key-preserving map keeps the first entry found for a key, mapping
its value. -/
theorem cacheGet_map_update (f : CachedConv → CachedConv) (k : Str) :
    ∀ (l : Cache) (v : CachedConv), cacheGet l k = some v →
      cacheGet (l.map (fun e => if e.1 == k then (e.1, f e.2) else e)) k
        = some (f v) := by
  intro l
  induction l with
  | nil => intro v h; simp [cacheGet] at h
  | cons a as ih =>
    intro v h
    cases hak : (a.1 == k) with
    | true =>
      simp only [cacheGet, hak, if_true] at h
      cases h
      simp [cacheGet, hak]
    | false =>
      simp only [cacheGet, hak, Bool.false_eq_true, if_false] at h
      simpa [cacheGet, hak] using ih v h

/-! ## Framing lemmas for the stream client -/

/-- Extracting lines commutes with appending more input: the lines of
`x ++ y` are the lines of `x` followed by the lines of the held-back
buffer of `x` glued onto `y`. -/
theorem extractLines_append (x y : List Char) :
    extractLines (x ++ y)
      = ((extractLines x).1 ++ (extractLines ((extractLines x).2 ++ y)).1,
         (extractLines ((extractLines x).2 ++ y)).2) := by
  induction x with
  | nil => simp [extractLines]
  | cons c cs ih =>
    by_cases hc : c = '\n'
    · subst hc
      simp [extractLines, ih]
    · simp only [List.cons_append, extractLines, if_neg hc, List.append_eq]
      rw [ih]
      cases h1 : (extractLines cs).1 with
      | nil =>
        simp only [h1, List.nil_append, List.cons_append, extractLines,
          if_neg hc, List.append_eq]
      | cons l ls =>
        simp [h1]

/-- The held-back buffer never contains a newline. -/
theorem extractLines_buffer_no_nl (s : List Char) :
    '\n' ∉ (extractLines s).2 := by
  induction s with
  | nil => simp [extractLines]
  | cons c cs ih =>
    by_cases hc : c = '\n'
    · subst hc; simpa [extractLines] using ih
    · simp only [extractLines, if_neg hc]
      cases h1 : (extractLines cs).1 with
      | nil =>
        simp only [h1]
        intro hmem
        rcases List.mem_cons.mp hmem with h | h
        · exact hc h.symm
        · exact ih h
      | cons l ls => simpa [h1] using ih

/-- Extracted lines never contain a newline. -/
theorem extractLines_lines_no_nl (s : List Char) :
    ∀ l ∈ (extractLines s).1, '\n' ∉ l := by
  induction s with
  | nil => simp [extractLines]
  | cons c cs ih =>
    by_cases hc : c = '\n'
    · subst hc
      simp only [extractLines, if_pos rfl]
      intro l hl
      rcases List.mem_cons.mp hl with h | h
      · simp [h]
      · exact ih l h
    · simp only [extractLines, if_neg hc]
      cases h1 : (extractLines cs).1 with
      | nil => simp
      | cons m ms =>
        intro l hl
        rcases List.mem_cons.mp hl with h | h
        · subst h
          intro hmem
          rcases List.mem_cons.mp hmem with h | h
          · exact hc h.symm
          · exact ih m (by simp [h1]) h
        · exact ih l (by simp [h1, h])

/-- A text is its lines rejoined plus the held-back buffer. -/
theorem extractLines_decomp (s : List Char) :
    joinNL (extractLines s).1 ++ (extractLines s).2 = s := by
  induction s with
  | nil => simp [extractLines, joinNL]
  | cons c cs ih =>
    by_cases hc : c = '\n'
    · subst hc
      simp [extractLines, joinNL, ih]
    · simp only [extractLines, if_neg hc]
      cases h1 : (extractLines cs).1 with
      | nil =>
        rw [h1] at ih
        simpa [joinNL] using ih
      | cons l ls =>
        rw [h1] at ih
        simpa [joinNL] using ih

/-- Extracting lines from rejoined newline-free lines recovers them with
an empty buffer. -/
theorem extractLines_joinNL (ls : List (List Char))
    (h : ∀ l ∈ ls, '\n' ∉ l) :
    extractLines (joinNL ls) = (ls, []) := by
  induction ls with
  | nil => simp [joinNL, extractLines]
  | cons l ls ih =>
    have hl : '\n' ∉ l := h l (by simp)
    have hrest := ih (fun x hx => h x (by simp [hx]))
    clear ih h
    simp only [joinNL]
    induction l with
    | nil => simp [extractLines, hrest]
    | cons c cl ihl =>
      have hc : ¬ c = '\n' := fun hcc => hl (by simp [hcc])
      have hcl : '\n' ∉ cl := fun hx => hl (by simp [hx])
      simp only [List.cons_append, extractLines, if_neg hc, List.append_eq,
        ihl hcl]

/-- Dropping from an all-satisfying left part continues on the right. -/
theorem dropWhile_append_of_all {p : Char → Bool} :
    ∀ (u v : List Char), (∀ c ∈ u, p c = true) →
      (u ++ v).dropWhile p = v.dropWhile p := by
  intro u
  induction u with
  | nil => intro v _; rfl
  | cons a u ih =>
    intro v h
    have ha := h a (by simp)
    simp only [List.cons_append, List.dropWhile_cons, ha, if_true]
    exact ih v (fun c hc => h c (by simp [hc]))

/-- A newline-free tail does not contribute to the framed prefix. -/
theorem keepThroughLastNewline_append (x b : List Char) (hb : '\n' ∉ b) :
    keepThroughLastNewline (x ++ b) = keepThroughLastNewline x := by
  unfold keepThroughLastNewline
  rw [List.reverse_append]
  rw [dropWhile_append_of_all b.reverse x.reverse]
  intro c hc
  have hcb : c ∈ b := List.mem_reverse.mp hc
  have hcn : c ≠ '\n' := fun hcc => hb (hcc ▸ hcb)
  simp [hcn]

/-- Rejoined lines are their own framed prefix. -/
theorem keepThroughLastNewline_joinNL (ls : List (List Char)) :
    keepThroughLastNewline (joinNL ls) = joinNL ls := by
  cases ls with
  | nil => rfl
  | cons l ls =>
    have hconcat : ∀ (ls' : List (List Char)) (l' : List Char),
        ∃ w, joinNL (l' :: ls') = w ++ ['\n'] := by
      intro ls'
      induction ls' with
      | nil => intro l'; exact ⟨l', by simp [joinNL]⟩
      | cons l2 ls2 ih =>
        intro l'
        obtain ⟨w, hw⟩ := ih l2
        refine ⟨l' ++ '\n' :: w, ?_⟩
        rw [show joinNL (l' :: l2 :: ls2) = l' ++ '\n' :: joinNL (l2 :: ls2)
          from rfl, hw]
        simp
    obtain ⟨w, hw⟩ := hconcat ls l
    rw [hw]
    unfold keepThroughLastNewline
    rw [List.reverse_append]
    simp [List.dropWhile_cons]

/-- The framed prefix of a text is its extracted lines rejoined. -/
theorem keepThroughLastNewline_eq_joinNL (s : List Char) :
    keepThroughLastNewline s = joinNL (extractLines s).1 := by
  conv => lhs; rw [← extractLines_decomp s]
  rw [keepThroughLastNewline_append _ _ (extractLines_buffer_no_nl s)]
  exact keepThroughLastNewline_joinNL _

/-- Dispatching a concatenation of line lists composes. -/
theorem processLines_append (r : Bool) (ls1 ls2 : List (List Char)) :
    processLines r (ls1 ++ ls2) false
      = ((processLines r ls1 false).1
            ++ (processLines r ls2 (processLines r ls1 false).2).1,
         (processLines r ls2 (processLines r ls1 false).2).2) := by
  induction ls1 with
  | nil => simp [processLines]
  | cons l ls ih =>
    cases hstep : stepLine r l with
    | skip => simpa [processLines, hstep] using ih
    | emit s => simp [processLines, hstep, ih]
    | emitDoneStop =>
      cases ls2 with
      | nil => simp [processLines, hstep]
      | cons a as => simp [processLines, hstep]

/-- A halted client emits nothing more. -/
theorem processChunksFrom_halted (r : Bool) (b : List Char) :
    ∀ (cs : List (List Char)), processChunksFrom r ⟨b, true⟩ cs = [] := by
  intro cs
  induction cs with
  | nil => rfl
  | cons c cs ih => simpa [processChunksFrom, processChunk] using ih

/-- Unfolding equation for `processChunksFrom` at a cons. -/
theorem processChunksFrom_cons (r : Bool) (st : ClientState)
    (c : List Char) (cs : List (List Char)) :
    processChunksFrom r st (c :: cs)
      = (processChunk r st c).1
          ++ processChunksFrom r (processChunk r st c).2 cs := rfl

/-- Evaluation of `processChunk` on a live (non-halted) state. -/
theorem processChunk_not_halted (r : Bool) (b c : List Char) :
    processChunk r ⟨b, false⟩ c
      = ((processLines r (extractLines (b ++ c)).1 false).1,
         ⟨(extractLines (b ++ c)).2,
          (processLines r (extractLines (b ++ c)).1 false).2⟩) := by
  simp [processChunk]

/-- A halted line dispatch yields nothing. -/
theorem processLines_halted (r : Bool) (ls : List (List Char)) :
    processLines r ls true = ([], true) := by
  cases ls <;> rfl

/-- Two adjacent chunks can be merged without changing the client
output. -/
theorem processChunksFrom_merge (r : Bool) (st : ClientState)
    (c1 c2 : List Char) (cs : List (List Char)) :
    processChunksFrom r st (c1 :: c2 :: cs)
      = processChunksFrom r st ((c1 ++ c2) :: cs) := by
  obtain ⟨b, halted⟩ := st
  cases halted with
  | true => rw [processChunksFrom_halted, processChunksFrom_halted]
  | false =>
    conv_lhs => rw [processChunksFrom_cons, processChunk_not_halted]
    conv_rhs => rw [processChunksFrom_cons, processChunk_not_halted]
    rw [show b ++ (c1 ++ c2) = (b ++ c1) ++ c2
      from (List.append_assoc b c1 c2).symm]
    rw [extractLines_append (b ++ c1) c2]
    dsimp only
    rw [processLines_append]
    dsimp only
    cases hp : (processLines r (extractLines (b ++ c1)).1 false).2 with
    | true =>
      rw [processLines_halted]
      dsimp only
      rw [processChunksFrom_halted, processChunksFrom_halted]
      simp
    | false =>
      rw [processChunksFrom_cons, processChunk_not_halted]
      dsimp only
      simp [List.append_assoc]

/-- Splitting the stream into chunks never changes the client output: it
equals the output on the whole text fed as one chunk. -/
theorem processChunks_eq_single (r : Bool) :
    ∀ (chunks : List (List Char)),
      processChunks r chunks = processChunks r [chunks.flatten] := by
  have aux : ∀ (cs : List (List Char)) (c : List Char),
      processChunks r (c :: cs) = processChunks r [c ++ cs.flatten] := by
    intro cs
    induction cs with
    | nil => intro c; simp
    | cons c2 cs2 ih =>
      intro c
      rw [show processChunks r (c :: c2 :: cs2)
            = processChunksFrom r ⟨[], false⟩ (c :: c2 :: cs2) from rfl]
      rw [processChunksFrom_merge]
      rw [show processChunksFrom r ⟨[], false⟩ ((c ++ c2) :: cs2)
            = processChunks r ((c ++ c2) :: cs2) from rfl]
      rw [ih (c ++ c2)]
      simp [List.append_assoc]
  intro chunks
  cases chunks with
  | nil =>
    simp [processChunks, processChunksFrom, processChunk, processLines,
      extractLines]
  | cons c cs => simpa using aux cs c

/-- A line the client emits through `stepLine` is tagged `0:` or `g:`. -/
theorem stepLine_emit_good (r : Bool) (l s : Str)
    (h : stepLine r l = .emit s) : goodLine s = true := by
  simp only [stepLine] at h
  split_ifs at h with h1 h2 h3 h4 h5 h6 <;>
    first
      | exact (LineStep.noConfusion h)
      | · cases h
          simp only [goodLine, h3, Bool.true_or]
      | · cases h
          have h4' : (str "g:").isPrefixOf (pyStrip l) = true := by
            cases hx : (str "g:").isPrefixOf (pyStrip l) with
            | true => rfl
            | false => rw [hx, Bool.false_and] at h4; exact absurd h4 (by simp)
          simp only [goodLine, h4', Bool.or_true]

/-- Shape of the line dispatch output: if it halted it emitted some good
lines then the done signal; if not, only good lines. -/
theorem processLines_shape (r : Bool) :
    ∀ (ls : List (List Char)),
      ((processLines r ls false).2 = true →
        ∃ pre, (processLines r ls false).1 = pre ++ [doneLine]
          ∧ ∀ x ∈ pre, goodLine x = true) ∧
      ((processLines r ls false).2 = false →
        ∀ x ∈ (processLines r ls false).1, goodLine x = true) := by
  intro ls
  induction ls with
  | nil =>
    constructor
    · intro h; simp [processLines] at h
    · intro _; simp [processLines]
  | cons l ls ih =>
    cases hstep : stepLine r l with
    | skip => simpa [processLines, hstep] using ih
    | emit s =>
      have hg := stepLine_emit_good r l s hstep
      constructor
      · intro h2
        simp only [processLines, hstep] at h2 ⊢
        obtain ⟨pre, hpre, hgood⟩ := ih.1 h2
        refine ⟨s :: pre, by simp [hpre], ?_⟩
        intro x hx
        rcases List.mem_cons.mp hx with h | h
        · exact h ▸ hg
        · exact hgood x h
      · intro h2
        simp only [processLines, hstep] at h2 ⊢
        intro x hx
        rcases List.mem_cons.mp hx with h | h
        · exact h ▸ hg
        · exact ih.2 h2 x h
    | emitDoneStop =>
      constructor
      · intro _
        exact ⟨[], by simp [processLines, hstep], by simp⟩
      · intro h2
        simp [processLines, hstep] at h2

/-- On the success path the client always emits good lines followed by
exactly one final done signal. -/
theorem processChunksFrom_shape (r : Bool) :
    ∀ (cs : List (List Char)) (b : List Char),
      ∃ pre, processChunksFrom r ⟨b, false⟩ cs = pre ++ [doneLine]
        ∧ ∀ x ∈ pre, goodLine x = true := by
  intro cs
  induction cs with
  | nil => intro b; exact ⟨[], rfl, by simp⟩
  | cons c cs ih =>
    intro b
    rw [processChunksFrom_cons, processChunk_not_halted]
    dsimp only
    cases hp : (processLines r (extractLines (b ++ c)).1 false).2 with
    | true =>
      obtain ⟨pre, hpre, hgood⟩ := (processLines_shape r _).1 hp
      rw [processChunksFrom_halted]
      exact ⟨pre, by simp [hpre], hgood⟩
    | false =>
      have hgood1 := (processLines_shape r _).2 hp
      obtain ⟨pre2, hpre2, hgood2⟩ := ih (extractLines (b ++ c)).2
      refine ⟨(processLines r (extractLines (b ++ c)).1 false).1 ++ pre2,
        by simp [hpre2], ?_⟩
      intro x hx
      rcases List.mem_append.mp hx with h | h
      · exact hgood1 x h
      · exact hgood2 x h

/-- The whole client success-path output: good lines, then the done
signal, exactly once. -/
theorem processChunks_shape (r : Bool) (chunks : List (List Char)) :
    ∃ pre, processChunks r chunks = pre ++ [doneLine]
      ∧ ∀ x ∈ pre, goodLine x = true :=
  processChunksFrom_shape r chunks []

/-- Unfolding of `isPrefixOf` at a cons on both sides. -/
theorem isPrefixOf_cons_cons (a b : Char) (p t : List Char) :
    (a :: p).isPrefixOf (b :: t) = ((a == b) && p.isPrefixOf t) := rfl

/-- A prefix test fails when the heads differ. -/
theorem isPrefixOf_head_ne (a b : Char) (p t : List Char)
    (h : (a == b) = false) : (a :: p).isPrefixOf (b :: t) = false := by
  rw [isPrefixOf_cons_cons, h, Bool.false_and]

/-- A successful prefix test is exactly an append decomposition. -/
theorem isPrefixOf_exists_append (p : List Char) :
    ∀ (l : List Char), p.isPrefixOf l = true ↔ ∃ t, p ++ t = l := by
  induction p with
  | nil => intro l; simp [List.isPrefixOf]
  | cons a p ih =>
    intro l
    cases l with
    | nil => simp [List.isPrefixOf]
    | cons b t =>
      rw [isPrefixOf_cons_cons]
      constructor
      · intro h
        have hab : (a == b) = true ∧ p.isPrefixOf t = true := by
          cases hx : (a == b) with
          | false => rw [hx, Bool.false_and] at h; exact absurd h (by simp)
          | true => rw [hx, Bool.true_and] at h; exact ⟨rfl, h⟩
        obtain ⟨t2, ht2⟩ := (ih t).mp hab.2
        have habEq : a = b := by simpa using hab.1
        exact ⟨t2, by rw [List.cons_append, ht2, habEq]⟩
      · rintro ⟨t2, ht2⟩
        rw [List.cons_append] at ht2
        injection ht2 with h1 h2
        subst h1
        simp [(ih t).mpr ⟨t2, h2⟩]

/-- A good line starts with `0:` or `g:` literally. -/
theorem goodLine_shape (l : Str) (h : goodLine l = true) :
    (∃ t, l = '0' :: ':' :: t) ∨ (∃ t, l = 'g' :: ':' :: t) := by
  have h' : (str "0:").isPrefixOf l = true ∨ (str "g:").isPrefixOf l = true := by
    simpa [goodLine] using h
  rcases h' with h | h
  · left
    obtain ⟨t, ht⟩ := (isPrefixOf_exists_append _ _).mp h
    refine ⟨t, ?_⟩
    rw [← ht, show str "0:" = ['0', ':'] from by decide]
    rfl
  · right
    obtain ⟨t, ht⟩ := (isPrefixOf_exists_append _ _).mp h
    refine ⟨t, ?_⟩
    rw [← ht, show str "g:" = ['g', ':'] from by decide]
    rfl

/-- The translator turns the final done line into the finish chunk plus
the end-of-stream sentinel, reaching the cache-update step. -/
theorem adapterGo_doneLine (r : Bool) (first : Bool) (parts : List Str) :
    adapterGo r [doneLine] first parts
      = ([finishChunk, SSEItem.doneSentinel], some parts) := by
  simp [adapterGo,
    (by decide : ((str "error:").isPrefixOf doneLine) = false),
    (by decide : ((str "0:\"").isPrefixOf doneLine) = false),
    (by decide : ((str "g:\"").isPrefixOf doneLine) = false),
    (by decide : ((str "d:").isPrefixOf doneLine) = true),
    (by decide : parseDoneSignal (doneLine.drop 2) = true)]

/-- The translator turns an error line into the error chunk plus the
end-of-stream sentinel, skipping the cache update. -/
theorem adapterGo_errorLine (r : Bool) (first : Bool) (parts : List Str)
    (l : Str) (h : (str "error:").isPrefixOf l = true) :
    adapterGo r (l :: []) first parts
      = ([errorChunk l, SSEItem.doneSentinel], none) := by
  simp [adapterGo, h]

/-- Translating a stretch of good (content/reasoning) lines yields only
non-terminal chunks, then continues on the remaining input. -/
theorem adapterGo_good_run (r : Bool) :
    ∀ (pre : List Str), (∀ x ∈ pre, goodLine x = true) →
    ∀ (tail : List Str) (first : Bool) (parts : List Str),
      ∃ mid first2 parts2,
        adapterGo r (pre ++ tail) first parts
          = (mid ++ (adapterGo r tail first2 parts2).1,
             (adapterGo r tail first2 parts2).2)
        ∧ ∀ e ∈ mid, isFinishChunk e = false ∧ e ≠ SSEItem.doneSentinel := by
  intro pre
  induction pre with
  | nil =>
    intro _ tail first parts
    exact ⟨[], first, parts, by simp, by simp⟩
  | cons l pre ih =>
    intro hgood tail first parts
    have hl := hgood l (by simp)
    have hpre : ∀ x ∈ pre, goodLine x = true :=
      fun x hx => hgood x (by simp [hx])
    rcases goodLine_shape l hl with ⟨t, rfl⟩ | ⟨t, rfl⟩
    · have herr : (str "error:").isPrefixOf ('0' :: ':' :: t) = false := by
        rw [show str "error:" = 'e' :: str "rror:" from by decide]
        exact isPrefixOf_head_ne _ _ _ _ (by decide)
      have hg3 : (str "g:\"").isPrefixOf ('0' :: ':' :: t) = false := by
        rw [show str "g:\"" = 'g' :: str ":\"" from by decide]
        exact isPrefixOf_head_ne _ _ _ _ (by decide)
      have hd : (str "d:").isPrefixOf ('0' :: ':' :: t) = false := by
        rw [show str "d:" = 'd' :: str ":" from by decide]
        exact isPrefixOf_head_ne _ _ _ _ (by decide)
      cases h0 : ((str "0:\"").isPrefixOf ('0' :: ':' :: t)
          && (('0' :: ':' :: t).getLast? == some '"')) with
      | true =>
        obtain ⟨mid, first2, parts2, heq, hmid⟩ := ih hpre tail true
          (parts ++ [parse_json_string_content ('0' :: ':' :: t) 3])
        refine ⟨SSEItem.chunk
            (if !first then
              { role := some (str "assistant")
                content := some (parse_json_string_content ('0' :: ':' :: t) 3) }
             else { content := some (parse_json_string_content ('0' :: ':' :: t) 3) })
            none :: mid, first2, parts2, ?_, ?_⟩
        · simp only [List.cons_append, adapterGo, herr, hg3, hd, h0,
            Bool.and_false, Bool.false_and, Bool.false_eq_true, if_false,
            if_true]
          rw [show List.append pre tail = pre ++ tail from rfl]
          rw [heq]
        · intro e he
          rcases List.mem_cons.mp he with h | h
          · subst h
            exact ⟨rfl, by simp⟩
          · exact hmid e h
      | false =>
        obtain ⟨mid, first2, parts2, heq, hmid⟩ := ih hpre tail first parts
        refine ⟨mid, first2, parts2, ?_, hmid⟩
        simp only [List.cons_append, adapterGo, herr, hg3, hd, h0,
          Bool.and_false, Bool.false_and, Bool.false_eq_true, if_false,
          List.append_eq]
        exact heq
    · have herr : (str "error:").isPrefixOf ('g' :: ':' :: t) = false := by
        rw [show str "error:" = 'e' :: str "rror:" from by decide]
        exact isPrefixOf_head_ne _ _ _ _ (by decide)
      have h03 : (str "0:\"").isPrefixOf ('g' :: ':' :: t) = false := by
        rw [show str "0:\"" = '0' :: str ":\"" from by decide]
        exact isPrefixOf_head_ne _ _ _ _ (by decide)
      have hd : (str "d:").isPrefixOf ('g' :: ':' :: t) = false := by
        rw [show str "d:" = 'd' :: str ":" from by decide]
        exact isPrefixOf_head_ne _ _ _ _ (by decide)
      cases hg : (r && (str "g:\"").isPrefixOf ('g' :: ':' :: t)
          && (('g' :: ':' :: t).getLast? == some '"')) with
      | true =>
        obtain ⟨mid, first2, parts2, heq, hmid⟩ := ih hpre tail true
          (parts ++ [str "[Thinking]: "
            ++ parse_json_string_content ('g' :: ':' :: t) 3])
        refine ⟨SSEItem.chunk
            (if !first then
              { role := some (str "assistant")
                reasoning_content :=
                  some (parse_json_string_content ('g' :: ':' :: t) 3) }
             else { reasoning_content :=
                      some (parse_json_string_content ('g' :: ':' :: t) 3) })
            none :: mid, first2, parts2, ?_, ?_⟩
        · simp only [List.cons_append, adapterGo, herr, h03, hd, hg,
            Bool.and_false, Bool.false_and, Bool.false_eq_true, if_false,
            if_true]
          rw [show List.append pre tail = pre ++ tail from rfl]
          rw [heq]
        · intro e he
          rcases List.mem_cons.mp he with h | h
          · subst h
            exact ⟨rfl, by simp⟩
          · exact hmid e h
      | false =>
        obtain ⟨mid, first2, parts2, heq, hmid⟩ := ih hpre tail first parts
        refine ⟨mid, first2, parts2, ?_, hmid⟩
        simp only [List.cons_append, adapterGo, herr, h03, hd, hg,
          Bool.and_false, Bool.false_and, Bool.false_eq_true, if_false,
          List.append_eq]
        exact heq

/-- The terminal-shape check holds for any non-terminal stretch followed
by a finish chunk and the sentinel. -/
theorem endsWithUniqueTerminal_of_shape (mid : List SSEItem) (fc : SSEItem)
    (hfc : isFinishChunk fc = true)
    (hmid : ∀ e ∈ mid, isFinishChunk e = false ∧ e ≠ SSEItem.doneSentinel) :
    endsWithUniqueTerminal (mid ++ [fc, SSEItem.doneSentinel]) = true := by
  unfold endsWithUniqueTerminal
  rw [List.reverse_append]
  simp only [List.reverse_cons, List.reverse_nil, List.nil_append,
    List.cons_append, List.append_nil]
  rw [hfc, Bool.true_and]
  rw [List.all_eq_true]
  intro e he
  have hem := hmid e (List.mem_reverse.mp he)
  simp [hem.1, hem.2]

/-- The error line of a failed upstream status carries the `error:`
tag. -/
theorem errorLine_error_tagged (status : Nat) (content : Str) :
    (str "error:").isPrefixOf (mkErrorLine status content) = true := by
  unfold mkErrorLine
  rw [show str "error: \x7b\"message\": \"API请求失败: "
      = str "error:" ++ str " \x7b\"message\": \"API请求失败: " from by decide]
  simp only [List.append_assoc]
  exact (isPrefixOf_exists_append _ _).mpr ⟨_, rfl⟩

/-- The client output on a single chunk. -/
theorem processChunks_single (r : Bool) (x : List Char) :
    processChunks r [x]
      = (processLines r (extractLines x).1 false).1
          ++ if (processLines r (extractLines x).1 false).2 then []
             else [doneLine] := by
  rw [show processChunks r [x] = processChunksFrom r ⟨[], false⟩ [x] from rfl]
  rw [processChunksFrom_cons, processChunk_not_halted]
  dsimp only
  rw [List.nil_append]
  rfl

/-- C5 as stated (arbitrary byte boundaries) is false on the code: the
client decodes every chunk with `errors='ignore'` before buffering, so a
split inside a multi-byte UTF-8 character silently drops its bytes.  For
the byte string `0:"é"\n` (é = C3 A9), splitting between C3 and A9
yields the line `0:""` instead of `0:"é"`. -/
theorem C5_counterexample :
    send_message_stream_lines false
        [[0x30, 0x3A, 0x22, 0xC3], [0xA9, 0x22, 0x0A]]
      ≠ send_message_stream_lines false
        [[0x30, 0x3A, 0x22, 0xC3, 0xA9, 0x22, 0x0A]] ∧
    send_message_stream_lines false
        [[0x30, 0x3A, 0x22, 0xC3], [0xA9, 0x22, 0x0A]]
      = [str "0:\"\"", doneLine] ∧
    send_message_stream_lines false
        [[0x30, 0x3A, 0x22, 0xC3, 0xA9, 0x22, 0x0A]]
      = [str "0:\"é\"", doneLine] := by
  refine ⟨by decide, by decide, by decide⟩

/-- C5 (amended): feeding the line-reframing adapter the upstream stream
split at arbitrary character boundaries — any partition whose chunks each
decode cleanly, i.e. no split inside a multi-byte UTF-8 character —
yields exactly the same classified line sequence as feeding the identical
text as one single chunk. -/
theorem C5_char_boundary_invariance (r : Bool) (chunks : List (List Char)) :
    processChunks r chunks = processChunks r [chunks.flatten] :=
  processChunks_eq_single r chunks

/-- C10: a trailing partial line (bytes after the last newline) is never
classified or forwarded: the client output equals the output on the same
stream with the trailing partial line deleted (the text truncated at its
last newline), the synthesized done signal included. -/
theorem C10_trailing_incomplete_line_dropped (r : Bool)
    (chunks : List (List Char)) :
    processChunks r chunks
      = processChunks r [keepThroughLastNewline chunks.flatten] := by
  rw [processChunks_eq_single r chunks]
  generalize chunks.flatten = s
  rw [keepThroughLastNewline_eq_joinNL]
  rw [processChunks_single, processChunks_single,
    extractLines_joinNL _ (extractLines_lines_no_nl s)]

/-- C4: every translated stream carries exactly one terminal event — a
chunk with a finish-reason marker immediately followed by the
end-of-stream sentinel, at the very end — whether the upstream byte
stream ended with an explicit done signal or without one (first
conjunct: the client synthesizes the done), whether the upstream status
was a failure (second conjunct), or whether an error line arrived
mid-stream after any number of content/reasoning lines (third
conjunct). -/
theorem C4_unique_terminal :
    (∀ (r : Bool) (byteChunks : List (List Nat)),
      endsWithUniqueTerminal
        (openai_stream_adapter r (send_message_stream_lines r byteChunks)).1
        = true) ∧
    (∀ (r : Bool) (status : Nat) (content : Str),
      endsWithUniqueTerminal
        (openai_stream_adapter r (send_message_stream_error status content)).1
        = true) ∧
    (∀ (r : Bool) (pre : List Str) (errLine : Str),
      (∀ x ∈ pre, goodLine x = true) →
      (str "error:").isPrefixOf errLine = true →
      endsWithUniqueTerminal
        (openai_stream_adapter r (pre ++ [errLine])).1 = true) := by
  refine ⟨?_, ?_, ?_⟩
  · intro r byteChunks
    obtain ⟨pre, hpre, hgood⟩ :=
      processChunks_shape r (byteChunks.map utf8DecodeIgnore)
    rw [show send_message_stream_lines r byteChunks
        = processChunks r (byteChunks.map utf8DecodeIgnore) from rfl, hpre]
    obtain ⟨mid, first2, parts2, heq, hmid⟩ :=
      adapterGo_good_run r pre hgood [doneLine] false []
    rw [show (openai_stream_adapter r (pre ++ [doneLine])).1
        = (adapterGo r (pre ++ [doneLine]) false []).1 from rfl]
    rw [heq, adapterGo_doneLine]
    dsimp only
    exact endsWithUniqueTerminal_of_shape mid finishChunk rfl hmid
  · intro r status content
    rw [show (openai_stream_adapter r
          (send_message_stream_error status content)).1
        = (adapterGo r [mkErrorLine status content] false []).1 from rfl]
    rw [adapterGo_errorLine r false [] _
      (errorLine_error_tagged status content)]
    simpa using endsWithUniqueTerminal_of_shape []
      (errorChunk (mkErrorLine status content)) rfl (by simp)
  · intro r pre errLine hgood herr
    obtain ⟨mid, first2, parts2, heq, hmid⟩ :=
      adapterGo_good_run r pre hgood [errLine] false []
    rw [show (openai_stream_adapter r (pre ++ [errLine])).1
        = (adapterGo r (pre ++ [errLine]) false []).1 from rfl]
    rw [heq, adapterGo_errorLine r first2 parts2 errLine herr]
    dsimp only
    exact endsWithUniqueTerminal_of_shape mid (errorChunk errLine) rfl hmid

/-- Witness for C4 (third conjunct) at a concrete good line followed by
a concrete error line. -/
theorem C4_unique_terminal_witness :
    endsWithUniqueTerminal
      (openai_stream_adapter true ([str "0:\"hi\""] ++ [str "error: x"])).1
      = true :=
  C4_unique_terminal.2.2 true [str "0:\"hi\""] (str "error: x")
    (by decide) (by decide)

/-- C7: on an upstream failure — a non-success status (first conjunct) or
a mid-stream error line (second conjunct) — the output stream is exactly
(any already-produced non-terminal chunks followed by) one assistant-role
terminal chunk surfacing the failure description, then the end-of-stream
sentinel; and the conversation cache is left completely unmodified by the
update step of that request. -/
theorem C7_error_terminal_cache_unchanged :
    (∀ (r : Bool) (status : Nat) (content : Str) (is_new : Bool)
        (chatId : Str) (matched : Option Str) (msgs : List ChatMessage)
        (sysHash : Int) (url newId : Str) (now : Nat) (cache : Cache),
      openai_stream_adapter r (send_message_stream_error status content)
        = ([errorChunk (mkErrorLine status content), SSEItem.doneSentinel],
           none) ∧
      cacheAfterStream r (send_message_stream_error status content) is_new
        chatId matched msgs sysHash url newId now cache = cache) ∧
    (∀ (r : Bool) (pre : List Str) (errLine : Str) (is_new : Bool)
        (chatId : Str) (matched : Option Str) (msgs : List ChatMessage)
        (sysHash : Int) (url newId : Str) (now : Nat) (cache : Cache),
      (∀ x ∈ pre, goodLine x = true) →
      (str "error:").isPrefixOf errLine = true →
      ∃ mid,
        (openai_stream_adapter r (pre ++ [errLine])).1
          = mid ++ [errorChunk errLine, SSEItem.doneSentinel]
        ∧ (∀ e ∈ mid, isFinishChunk e = false ∧ e ≠ SSEItem.doneSentinel)
        ∧ (openai_stream_adapter r (pre ++ [errLine])).2 = none
        ∧ cacheAfterStream r (pre ++ [errLine]) is_new chatId matched msgs
            sysHash url newId now cache = cache) := by
  constructor
  · intro r status content is_new chatId matched msgs sysHash url newId now cache
    have hadapter : openai_stream_adapter r
        (send_message_stream_error status content)
        = ([errorChunk (mkErrorLine status content), SSEItem.doneSentinel],
           none) := by
      unfold openai_stream_adapter send_message_stream_error
      rw [adapterGo_errorLine r false [] _
        (errorLine_error_tagged status content)]
      rfl
    exact ⟨hadapter, by simp [cacheAfterStream, hadapter]⟩
  · intro r pre errLine is_new chatId matched msgs sysHash url newId now
      cache hgood herr
    obtain ⟨mid, first2, parts2, heq, hmid⟩ :=
      adapterGo_good_run r pre hgood [errLine] false []
    have hfull : adapterGo r (pre ++ [errLine]) false []
        = (mid ++ [errorChunk errLine, SSEItem.doneSentinel], none) := by
      rw [heq, adapterGo_errorLine r first2 parts2 errLine herr]
    have hadapter : openai_stream_adapter r (pre ++ [errLine])
        = (mid ++ [errorChunk errLine, SSEItem.doneSentinel], none) := by
      unfold openai_stream_adapter
      rw [hfull]
      rfl
    exact ⟨mid, by rw [hadapter], hmid, by rw [hadapter],
      by simp [cacheAfterStream, hadapter]⟩

/-- Witness for C7 (second conjunct) at a concrete good line followed by
a concrete error line, over the empty cache. -/
theorem C7_error_terminal_cache_unchanged_witness :
    ∃ mid,
      (openai_stream_adapter false ([str "0:\"hi\""] ++ [str "error: x"])).1
        = mid ++ [errorChunk (str "error: x"), SSEItem.doneSentinel]
      ∧ (∀ e ∈ mid, isFinishChunk e = false ∧ e ≠ SSEItem.doneSentinel)
      ∧ (openai_stream_adapter false ([str "0:\"hi\""] ++ [str "error: x"])).2
          = none
      ∧ cacheAfterStream false ([str "0:\"hi\""] ++ [str "error: x"]) true
          (str "c") none [] 0 (str "u") (str "id") 0 [] = [] :=
  C7_error_terminal_cache_unchanged.2 false [str "0:\"hi\""]
    (str "error: x") true (str "c") none [] 0 (str "u") (str "id") 0 []
    (by decide) (by decide)

/-- C6: for every content or reasoning line, the quoted escaped payload
is decoded as a standard escaped (JSON) string literal; if that decoding
fails because of a malformed escape, the decoder falls back to the manual
substitution of the escaped quote, newline and tab sequences, returning a
string (the function is total) rather than raising. -/
theorem C6_payload_decode_fallback (line : Str) (prefix_len : Nat) :
    (∀ s, jsonStringDecode ((line.drop prefix_len).dropLast) = some s →
        parse_json_string_content line prefix_len = s) ∧
    (jsonStringDecode ((line.drop prefix_len).dropLast) = none →
        parse_json_string_content line prefix_len
          = manualUnescape ((line.drop prefix_len).dropLast)) := by
  constructor
  · intro s h
    simp [parse_json_string_content, h]
  · intro h
    simp [parse_json_string_content, h]

/-- Witness for C6: a well-formed payload (`a\nb`) decodes as a JSON
string literal, and a malformed one (an unescaped inner quote) takes the
manual-substitution fallback. -/
theorem C6_payload_decode_fallback_witness :
    parse_json_string_content (str "0:\"a\\nb\"") 3 = str "a\nb" ∧
    parse_json_string_content (str "0:\"a\"b\"") 3 = manualUnescape (str "a\"b") := by
  constructor
  · exact (C6_payload_decode_fallback (str "0:\"a\\nb\"") 3).1 (str "a\nb") (by decide)
  · exact (C6_payload_decode_fallback (str "0:\"a\"b\"") 3).2 (by decide)

/-- C8: with reasoning requested and the upstream emitting
`g:"thinking"`, then `0:"answer"`, then a done signal, the first streamed
chunk carries the assistant role together with reasoning delta
`thinking`, a later chunk carries content delta `answer` without the role
marker, and the aggregated non-streaming content is
`"[Thinking]: thinking" ++ "answer"`. -/
theorem C8_reasoning_scenario :
    (openai_stream_adapter true (processChunks true
        [str "g:\"thinking\"\n0:\"answer\"\nd:\x7b\"type\": \"done\"\x7d\n"])).1.head?
      = some (.chunk { role := some (str "assistant")
                       reasoning_content := some (str "thinking") } none) ∧
    (openai_stream_adapter true (processChunks true
        [str "g:\"thinking\"\n0:\"answer\"\nd:\x7b\"type\": \"done\"\x7d\n"])).1[1]?
      = some (.chunk { content := some (str "answer") } none) ∧
    aggregateContent (openai_stream_adapter true (processChunks true
        [str "g:\"thinking\"\n0:\"answer\"\nd:\x7b\"type\": \"done\"\x7d\n"])).1
      = str "[Thinking]: thinking" ++ str "answer" := by
  refine ⟨by decide, by decide, by decide⟩

/-- C1 as stated is false on the code: after the first turn
(`system:"You are terse."`, `user:"Hi"` answered by `"Hello"`), a second
request on the same endpoint and system prompt that appends the
assistant reply and a new user message
(`[..., assistant:"Hello", user:"More?"]`) is NOT matched: the stored
record keeps 3 fingerprints, so its prefix with the trailing assistant
entry removed has 2 entries, while the request carries 3 prior-turn
fingerprints (it echoes the assistant reply).  A new conversation is
planned, and the full reconstructed history — not just `"More?"` — is
sent upstream. -/
theorem C1_counterexample :
    (planRequest
        [⟨str "system", str "You are terse."⟩, ⟨str "user", str "Hi"⟩,
         ⟨str "assistant", str "Hello"⟩, ⟨str "user", str "More?"⟩]
        (str "url-1") (str "chat-2")
        (_update_conversation_cache true (str "chat-1") none
          [⟨str "system", str "You are terse."⟩, ⟨str "user", str "Hi"⟩]
          (str "Hello")
          (pyhash (systemPromptOf
            [⟨str "system", str "You are terse."⟩, ⟨str "user", str "Hi"⟩]))
          (str "url-1") (str "conv-1") 0 [])).map
      (fun p => (p.matched_conv_id, p.is_new_cached_conversation,
                 p.final_vertical_chat_id, p.message_to_send))
      = some (none, true, str "chat-2",
              str "User: Hi\nAssistant: Hello\nUser: More?") := by
  decide

/-- C1 (amended): the continuation scenario holds when the second request
extends the conversation by appending only the new user message (the
assistant reply is not echoed back): the Matcher finds the prior record
(its stored fingerprints minus the trailing assistant entry matching the
fingerprints of the system message and the first user message), the
cached upstream session id is reused, and only the newest user message
text is sent upstream. -/
theorem C1_amended_reuse (sys u1 a1 u2 chatId url convId newId2 : Str)
    (t : Nat) (hu2 : u2 ≠ []) :
    (planRequest
        [⟨str "system", sys⟩, ⟨str "user", u1⟩, ⟨str "user", u2⟩]
        url newId2
        (_update_conversation_cache true chatId none
          [⟨str "system", sys⟩, ⟨str "user", u1⟩] a1
          (pyhash (systemPromptOf [⟨str "system", sys⟩, ⟨str "user", u1⟩]))
          url convId t [])).map
      (fun p => (p.matched_conv_id, p.is_new_cached_conversation,
                 p.final_vertical_chat_id, p.message_to_send))
      = some (some convId, false, chatId, u2) := by
  simp [planRequest, _update_conversation_cache, newCacheRecord,
    latestUserContent, systemPromptOf, historyText, matchStep, matcher,
    matchPred, CONVERSATION_CACHE_MAX_SIZE, List.find?, hu2,
    generate_message_fingerprint, assistantReplyFingerprint, List.dropLast,
    (by decide : ¬(str "user" = str "system")),
    (by decide : ¬(str "system" = str "user")),
    (by decide : ¬(str "assistant" = str "user")),
    (by decide : ¬(str "assistant" = str "system"))]

/-- Witness for C1 (amended) at the spec's concrete strings. -/
theorem C1_amended_reuse_witness :
    (planRequest
        [⟨str "system", str "You are terse."⟩, ⟨str "user", str "Hi"⟩,
         ⟨str "user", str "More?"⟩]
        (str "url-1") (str "chat-2")
        (_update_conversation_cache true (str "chat-1") none
          [⟨str "system", str "You are terse."⟩, ⟨str "user", str "Hi"⟩]
          (str "Hello")
          (pyhash (systemPromptOf
            [⟨str "system", str "You are terse."⟩, ⟨str "user", str "Hi"⟩]))
          (str "url-1") (str "conv-1") 0 [])).map
      (fun p => (p.matched_conv_id, p.is_new_cached_conversation,
                 p.final_vertical_chat_id, p.message_to_send))
      = some (some (str "conv-1"), false, str "chat-1", str "More?") :=
  C1_amended_reuse (str "You are terse.") (str "Hi") (str "Hello")
    (str "More?") (str "chat-1") (str "url-1") (str "conv-1")
    (str "chat-2") 0 (by decide)

/-- C2: the Matcher is prefix-exact. (i) Anything it returns is a cached
record agreeing on endpoint url, system-prompt signature, and stored
fingerprints minus the trailing assistant entry.  (ii) If a satisfying
record exists, the Matcher returns one, and nothing after the returned
record in recency order (i.e. nothing more recently used) satisfies the
condition — the scan is most-recently-used-first, first match wins.
(iii) A record deviating in the endpoint, the signature, or any
fingerprint is never returned. -/
theorem C2_matcher_prefix_exact (url : Str) (sysHash : Int)
    (priorFps : List Str) (cache : Cache) :
    (∀ k v, matcher url sysHash priorFps cache = some (k, v) →
        (k, v) ∈ cache ∧ v.vertical_model_url = url
          ∧ v.system_prompt_hash = sysHash
          ∧ v.message_fingerprints.dropLast = priorFps) ∧
    (∀ k v, (k, v) ∈ cache → v.vertical_model_url = url →
        v.system_prompt_hash = sysHash →
        v.message_fingerprints.dropLast = priorFps →
        ∃ k' v' pre post,
          matcher url sysHash priorFps cache = some (k', v')
          ∧ cache = pre ++ (k', v') :: post
          ∧ ∀ e ∈ post, matchPred url sysHash priorFps e = false) ∧
    (∀ k v, (k, v) ∈ cache →
        (v.vertical_model_url ≠ url ∨ v.system_prompt_hash ≠ sysHash
          ∨ v.message_fingerprints.dropLast ≠ priorFps) →
        ∀ k2, matcher url sysHash priorFps cache ≠ some (k2, v)) := by
  have predIff : ∀ (e : Str × CachedConv),
      matchPred url sysHash priorFps e = true ↔
        (e.2.vertical_model_url = url ∧ e.2.system_prompt_hash = sysHash
          ∧ e.2.message_fingerprints.dropLast = priorFps) := by
    intro e; simp [matchPred, and_assoc]
  refine ⟨?_, ?_, ?_⟩
  · intro k v h
    obtain ⟨hp, _, _, hdec, _⟩ := list_find_eq_some_split _ _ _ h
    refine ⟨?_, (predIff _).mp hp⟩
    have : (k, v) ∈ cache.reverse := by rw [hdec]; simp
    exact List.mem_reverse.mp this
  · intro k v hmem h1 h2 h3
    have hp : matchPred url sysHash priorFps (k, v) = true :=
      (predIff _).mpr ⟨h1, h2, h3⟩
    obtain ⟨y, hy⟩ := list_find_of_mem _ cache.reverse (k, v)
      (List.mem_reverse.mpr hmem) hp
    obtain ⟨hpy, l1, l2, hdec, hall⟩ := list_find_eq_some_split _ _ _ hy
    refine ⟨y.1, y.2, l2.reverse, l1.reverse, by simpa using hy, ?_, ?_⟩
    · have : cache = (l1 ++ y :: l2).reverse := by
        rw [← hdec, List.reverse_reverse]
      rw [this]; simp
    · intro e he
      have : e ∈ l1 := by simpa using he
      exact hall e this
  · intro k v hmem hdiff k2 hcon
    obtain ⟨hp, _, _, _, _⟩ := list_find_eq_some_split _ _ _ hcon
    have h3 := (predIff _).mp hp
    rcases hdiff with h | h | h
    · exact h h3.1
    · exact h h3.2.1
    · exact h h3.2.2

/-- Witness for C2 (first conjunct): a concrete one-record cache where
the Matcher succeeds and returns the record with the agreeing fields. -/
theorem C2_matcher_prefix_exact_witness :
    (str "k", (⟨str "c", str "u", 0, [str "f", str "a"], 0⟩ : CachedConv))
        ∈ [((str "k"), (⟨str "c", str "u", 0, [str "f", str "a"], 0⟩ : CachedConv))]
      ∧ (⟨str "c", str "u", 0, [str "f", str "a"], 0⟩ : CachedConv).vertical_model_url = str "u"
      ∧ (⟨str "c", str "u", 0, [str "f", str "a"], 0⟩ : CachedConv).system_prompt_hash = 0
      ∧ (⟨str "c", str "u", 0, [str "f", str "a"], 0⟩ : CachedConv).message_fingerprints.dropLast
          = [str "f"] :=
  (C2_matcher_prefix_exact (str "u") 0 [str "f"]
      [((str "k"), ⟨str "c", str "u", 0, [str "f", str "a"], 0⟩)]).1
    (str "k") ⟨str "c", str "u", 0, [str "f", str "a"], 0⟩ (by decide)

/-- C3: inserting a new conversation record never grows the cache past
`CONVERSATION_CACHE_MAX_SIZE` (given it was within bounds before, as
every reachable state is), and when an eviction occurs exactly one
record is removed, namely the front of the recency order — which, when
`last_seen` is ascending along the recency order (as maintained by the
monotone clock), is the record with the oldest `last_seen`. -/
theorem C3_put_bounded_lru (cache : Cache) (chatId : Str)
    (msgs : List ChatMessage) (reply : Str) (sysHash : Int) (url : Str)
    (newId : Str) (now : Nat)
    (hsize : cache.length ≤ CONVERSATION_CACHE_MAX_SIZE)
    (hfresh : ∀ e ∈ cache, e.1 ≠ newId)
    (hsorted : cache.Pairwise (fun a b => a.2.last_seen ≤ b.2.last_seen)) :
    (_update_conversation_cache true chatId none msgs reply sysHash url
        newId now cache).length ≤ CONVERSATION_CACHE_MAX_SIZE ∧
    (cache.length < CONVERSATION_CACHE_MAX_SIZE →
      _update_conversation_cache true chatId none msgs reply sysHash url
          newId now cache
        = cache ++ [(newId, newCacheRecord chatId url sysHash msgs reply now)]) ∧
    (cache.length = CONVERSATION_CACHE_MAX_SIZE →
      ∃ victim rest, cache = victim :: rest ∧
        _update_conversation_cache true chatId none msgs reply sysHash url
            newId now cache
          = rest ++ [(newId, newCacheRecord chatId url sysHash msgs reply now)] ∧
        ∀ e ∈ cache, victim.2.last_seen ≤ e.2.last_seen) := by
  have hany : cache.any (fun e => e.1 == newId) = false := by
    rw [List.any_eq_false]
    intro e he
    simpa using hfresh e he
  have hform : _update_conversation_cache true chatId none msgs reply
      sysHash url newId now cache
      = if CONVERSATION_CACHE_MAX_SIZE
            < (cache ++ [(newId, newCacheRecord chatId url sysHash msgs reply now)]).length
        then (cache ++ [(newId, newCacheRecord chatId url sysHash msgs reply now)]).tail
        else cache ++ [(newId, newCacheRecord chatId url sysHash msgs reply now)] := by
    simp [_update_conversation_cache, hany]
  by_cases hlt : cache.length < CONVERSATION_CACHE_MAX_SIZE
  · have hcond : ¬ CONVERSATION_CACHE_MAX_SIZE
        < (cache ++ [(newId, newCacheRecord chatId url sysHash msgs reply now)]).length := by
      simp only [List.length_append, List.length_cons, List.length_nil]
      omega
    rw [hform, if_neg hcond]
    refine ⟨?_, fun _ => rfl, fun heq => absurd heq (by omega)⟩
    simp only [List.length_append, List.length_cons, List.length_nil]
    omega
  · have heq : cache.length = CONVERSATION_CACHE_MAX_SIZE := by omega
    have hcond : CONVERSATION_CACHE_MAX_SIZE
        < (cache ++ [(newId, newCacheRecord chatId url sysHash msgs reply now)]).length := by
      simp only [List.length_append, List.length_cons, List.length_nil]
      omega
    rw [hform, if_pos hcond]
    cases cache with
    | nil => simp [CONVERSATION_CACHE_MAX_SIZE] at heq
    | cons victim rest =>
      have hmin : ∀ e ∈ victim :: rest, victim.2.last_seen ≤ e.2.last_seen := by
        intro e he
        rcases List.mem_cons.mp he with h | h
        · rw [h]
        · exact (List.pairwise_cons.mp hsorted).1 e h
      refine ⟨?_, fun h => absurd heq (by omega), fun _ => ⟨victim, rest, rfl, ?_, hmin⟩⟩
      · simp only [List.cons_append, List.tail_cons, List.length_append,
          List.length_cons, List.length_nil]
        simp only [List.length_cons] at heq
        omega
      · simp

/-- Witness for C3 at a concrete small cache (one entry, fresh id). -/
theorem C3_put_bounded_lru_witness :
    (_update_conversation_cache true (str "c") none [] (str "r") 0 (str "u")
        (str "new") 7
        [((str "old"), ⟨str "c0", str "u", 0, [str "f"], 3⟩)]).length
      ≤ CONVERSATION_CACHE_MAX_SIZE ∧
    ([((str "old"), (⟨str "c0", str "u", 0, [str "f"], 3⟩ : CachedConv))].length
        < CONVERSATION_CACHE_MAX_SIZE →
      _update_conversation_cache true (str "c") none [] (str "r") 0 (str "u")
          (str "new") 7
          [((str "old"), ⟨str "c0", str "u", 0, [str "f"], 3⟩)]
        = [((str "old"), ⟨str "c0", str "u", 0, [str "f"], 3⟩)]
            ++ [((str "new"), newCacheRecord (str "c") (str "u") 0 [] (str "r") 7)]) ∧
    ([((str "old"), (⟨str "c0", str "u", 0, [str "f"], 3⟩ : CachedConv))].length
        = CONVERSATION_CACHE_MAX_SIZE →
      ∃ victim rest,
        [((str "old"), (⟨str "c0", str "u", 0, [str "f"], 3⟩ : CachedConv))]
          = victim :: rest ∧
        _update_conversation_cache true (str "c") none [] (str "r") 0 (str "u")
            (str "new") 7
            [((str "old"), ⟨str "c0", str "u", 0, [str "f"], 3⟩)]
          = rest ++ [((str "new"), newCacheRecord (str "c") (str "u") 0 [] (str "r") 7)] ∧
        ∀ e ∈ [((str "old"), (⟨str "c0", str "u", 0, [str "f"], 3⟩ : CachedConv))],
          victim.2.last_seen ≤ e.2.last_seen) :=
  C3_put_bounded_lru
    [((str "old"), ⟨str "c0", str "u", 0, [str "f"], 3⟩)]
    (str "c") [] (str "r") 0 (str "u") (str "new") 7
    (by decide) (by decide) (by simp)

/-- C9: after every cache update for a completed turn — creating a new
record or extending a matched one — the record's fingerprint sequence is
non-empty and ends with the fingerprint of the assistant reply; on the
extension path the final user fingerprint is appended before it exactly
when it is not already the last stored element. -/
theorem C9_assistant_last_fingerprint :
    (∀ (chatId url reply newId : Str) (sysHash : Int)
        (msgs : List ChatMessage) (now : Nat) (cache : Cache),
      (∀ e ∈ cache, e.1 ≠ newId) →
      ∃ rec, cacheGet (_update_conversation_cache true chatId none msgs
          reply sysHash url newId now cache) newId = some rec ∧
        rec.message_fingerprints ≠ [] ∧
        rec.message_fingerprints.getLast?
          = some (assistantReplyFingerprint reply)) ∧
    (∀ (chatId url reply newId mid : Str) (sysHash : Int)
        (msgs : List ChatMessage) (now : Nat) (cache : Cache) (v : CachedConv),
      cacheGet cache mid = some v →
      ∃ rec, cacheGet (_update_conversation_cache false chatId (some mid)
          msgs reply sysHash url newId now cache) mid = some rec ∧
        rec.message_fingerprints
          = extendedFingerprints v.message_fingerprints msgs reply ∧
        rec.message_fingerprints ≠ [] ∧
        rec.message_fingerprints.getLast?
          = some (assistantReplyFingerprint reply)) ∧
    (∀ (old : List Str) (msgs : List ChatMessage) (reply : Str)
        (m : ChatMessage),
      msgs.getLast? = some m →
      (old.getLast? = some (generate_message_fingerprint m.role m.content) →
        extendedFingerprints old msgs reply
          = old ++ [assistantReplyFingerprint reply]) ∧
      (old.getLast? ≠ some (generate_message_fingerprint m.role m.content) →
        extendedFingerprints old msgs reply
          = old ++ [generate_message_fingerprint m.role m.content,
                    assistantReplyFingerprint reply])) := by
  refine ⟨?_, ?_, ?_⟩
  · intro chatId url reply newId sysHash msgs now cache hfresh
    have hany : cache.any (fun e => e.1 == newId) = false := by
      rw [List.any_eq_false]
      intro e he
      simpa using hfresh e he
    have hform : _update_conversation_cache true chatId none msgs reply
        sysHash url newId now cache
        = if CONVERSATION_CACHE_MAX_SIZE
              < (cache ++ [(newId, newCacheRecord chatId url sysHash msgs reply now)]).length
          then (cache ++ [(newId, newCacheRecord chatId url sysHash msgs reply now)]).tail
          else cache ++ [(newId, newCacheRecord chatId url sysHash msgs reply now)] := by
      simp [_update_conversation_cache, hany]
    refine ⟨newCacheRecord chatId url sysHash msgs reply now, ?_, ?_, ?_⟩
    · rw [hform]
      by_cases hcond : CONVERSATION_CACHE_MAX_SIZE
          < (cache ++ [(newId, newCacheRecord chatId url sysHash msgs reply now)]).length
      · rw [if_pos hcond]
        cases cache with
        | nil => simp [CONVERSATION_CACHE_MAX_SIZE] at hcond
        | cons a rest =>
          simp only [List.cons_append, List.tail_cons]
          exact cacheGet_append_fresh rest newId _
            (fun e he => by simpa using hfresh e (by simp [he]))
      · rw [if_neg hcond]
        exact cacheGet_append_fresh cache newId _
          (fun e he => by simpa using hfresh e he)
    · simp [newCacheRecord]
    · simp [newCacheRecord]
  · intro chatId url reply newId mid sysHash msgs now cache v hv
    refine ⟨{ v with
              message_fingerprints :=
                extendedFingerprints v.message_fingerprints msgs reply
              last_seen := now }, ?_, rfl, ?_, ?_⟩
    · have := cacheGet_map_update
        (fun w => { w with
                    message_fingerprints :=
                      extendedFingerprints w.message_fingerprints msgs reply
                    last_seen := now }) mid cache v hv
      simpa [_update_conversation_cache] using this
    · simp [extendedFingerprints]
    · simp [extendedFingerprints]
  · intro old msgs reply m hm
    constructor
    · intro hlast
      simp [extendedFingerprints, hm, hlast]
    · intro hlast
      simp [extendedFingerprints, hm, hlast]

/-- Witness for C9 at concrete inputs: a fresh insertion into an empty
cache, an extension of a one-record cache, and the conditional append at
a concrete history. -/
theorem C9_assistant_last_fingerprint_witness :
    (∃ rec, cacheGet (_update_conversation_cache true (str "c") none
        [⟨str "user", str "Hi"⟩] (str "r") 0 (str "u") (str "id") 1 [])
        (str "id") = some rec ∧
      rec.message_fingerprints ≠ [] ∧
      rec.message_fingerprints.getLast?
        = some (assistantReplyFingerprint (str "r"))) ∧
    (∃ rec, cacheGet (_update_conversation_cache false (str "c")
        (some (str "m")) [⟨str "user", str "Hi"⟩] (str "r") 0 (str "u")
        (str "id") 1 [((str "m"), ⟨str "c0", str "u", 0, [str "f"], 0⟩)])
        (str "m") = some rec ∧
      rec.message_fingerprints
        = extendedFingerprints [str "f"] [⟨str "user", str "Hi"⟩] (str "r") ∧
      rec.message_fingerprints ≠ [] ∧
      rec.message_fingerprints.getLast?
        = some (assistantReplyFingerprint (str "r"))) ∧
    ((([str "f"] : List Str).getLast?
        = some (generate_message_fingerprint (str "user") (str "Hi")) →
      extendedFingerprints [str "f"] [⟨str "user", str "Hi"⟩] (str "r")
        = [str "f"] ++ [assistantReplyFingerprint (str "r")]) ∧
     (([str "f"] : List Str).getLast?
        ≠ some (generate_message_fingerprint (str "user") (str "Hi")) →
      extendedFingerprints [str "f"] [⟨str "user", str "Hi"⟩] (str "r")
        = [str "f"] ++ [generate_message_fingerprint (str "user") (str "Hi"),
                        assistantReplyFingerprint (str "r")])) :=
  ⟨C9_assistant_last_fingerprint.1 (str "c") (str "u") (str "r") (str "id")
      0 [⟨str "user", str "Hi"⟩] 1 [] (by simp),
   C9_assistant_last_fingerprint.2.1 (str "c") (str "u") (str "r")
      (str "id") (str "m") 0 [⟨str "user", str "Hi"⟩] 1
      [((str "m"), ⟨str "c0", str "u", 0, [str "f"], 0⟩)]
      ⟨str "c0", str "u", 0, [str "f"], 0⟩ (by decide),
   C9_assistant_last_fingerprint.2.2 [str "f"] [⟨str "user", str "Hi"⟩]
      (str "r") ⟨str "user", str "Hi"⟩ (by decide)⟩

